import Mathlib

/-!
Verification of the openauth repository's specification against a shallow
embedding of its source.  Pure TypeScript/Go functions are translated into
Lean functions; stateful adapters become explicit state passing over lists;
external cryptographic primitives (SHA-256, ECDSA, random byte sources) are
taken as parameters of the definitions that call them.
-/

namespace OpenAuth

/-- The reserved key separator, `String.fromCharCode(0x1f)` in
`packages/openauth/src/storage/storage.ts`. -/
def sepChar : Char := Char.ofNat 0x1f

/-- The separator as a one-character string. -/
def sepStr : String := String.mk [sepChar]

/-- Model of JavaScript `Array.prototype.join(sep)` specialised to the
separator, embedding `joinKey` from `storage.ts`. -/
def joinKey : List String → String
  | [] => ""
  | [s] => s
  | s :: rest => s ++ sepStr ++ joinKey rest

/-- Split a character list at every occurrence of `c`; the JavaScript
`String.prototype.split` on a one-character separator. -/
def splitOnCharL (c : Char) : List Char → List (List Char)
  | [] => [[]]
  | x :: xs =>
    let r := splitOnCharL c xs
    if x = c then [] :: r
    else
      match r with
      | [] => [[x]]
      | h :: t => (x :: h) :: t

/-- Embedding of `splitKey` from `storage.ts`: `key.split(SEPERATOR)`. -/
def splitKey (s : String) : List String :=
  (splitOnCharL sepChar s.data).map String.mk

/-- Lower-case an ASCII letter, other characters unchanged. -/
def lowerAscii (c : Char) : Char :=
  if 'A' ≤ c ∧ c ≤ 'Z' then Char.ofNat (c.toNat + 32) else c

/-- ASCII-lower-case a string (model of case folding where only ASCII is
relevant). -/
def lowerStr (s : String) : String := String.mk (s.data.map lowerAscii)

/-! ### `timingSafeCompare` and `generateUnbiasedDigits` (src/unnamed/part_009) -/

/-- Embedding of `timingSafeCompare` from `part_009`: the `typeof` guards
always pass for strings; unequal lengths return `false`; otherwise the
function falls back to the JavaScript `a === b` string comparison. -/
def timingSafeCompare (a b : String) : Bool :=
  if a.data.length ≠ b.data.length then false else a == b

/-- Cost model of the JavaScript `a === b` fallback used by
`timingSafeCompare` after the length guard: a left-to-right scan that stops
at the first mismatching character, counting character comparisons. -/
def jsEqSteps : List Char → List Char → Nat
  | x :: xs, y :: ys => 1 + (if x = y then jsEqSteps xs ys else 0)
  | _, _ => 0

/-- Embedding of `generateUnbiasedDigits` from `part_009`, with the random
byte source made explicit: bytes `≥ 250` are rejected, accepted bytes
contribute `byte % 10`; the first `len` accepted bytes form the digits.
`none` when the supplied byte stream holds fewer than `len` accepted bytes
(the source loops for more randomness; the model exposes a finite stream). -/
def generateUnbiasedDigits (bytes : List Nat) (len : Nat) : Option String :=
  let accepted := (bytes.filter (fun b => b < 250)).map (fun b => b % 10)
  if accepted.length < len then none
  else some (String.mk ((accepted.take len).map Nat.digitChar))

/-! ### Scope parsing and validation (src/unnamed/part_010) -/

/-- A TypeScript `string | null | undefined` argument. -/
inductive StrArg where
  | undef : StrArg
  | null : StrArg
  | str : String → StrArg
deriving DecidableEq

/-- Embedding of `parseScopes` on an actual string:
`scope.split(" ").filter((s) => s)` — split on spaces, drop the falsy
(empty) tokens. -/
def parseScopes (s : String) : List String :=
  ((splitOnCharL ' ' s.data).map String.mk).filter (fun t => t ≠ "")

/-- Deduplicate preserving first occurrence, the insertion-order semantics
of constructing a JavaScript `Set` from a list. -/
def jsDedup (l : List String) : List String :=
  go l []
where
  go : List String → List String → List String
  | [], _ => []
  | x :: xs, seen => if x ∈ seen then go xs seen else x :: go xs (x :: seen)

theorem mem_jsDedup_go (l : List String) :
    ∀ (seen : List String) (x : String),
      x ∈ jsDedup.go l seen ↔ x ∈ l ∧ x ∉ seen := by
  induction l with
  | nil => intro seen x; simp [jsDedup.go]
  | cons y ys ih =>
    intro seen z
    simp only [jsDedup.go]
    by_cases hy : y ∈ seen
    · rw [if_pos hy, ih]
      simp only [List.mem_cons]
      constructor
      · rintro ⟨hz, hns⟩
        exact ⟨Or.inr hz, hns⟩
      · rintro ⟨hz | hz, hns⟩
        · exact absurd (hz ▸ hy) hns
        · exact ⟨hz, hns⟩
    · rw [if_neg hy]
      constructor
      · intro hz
        rcases List.mem_cons.mp hz with hz | hz
        · subst hz
          exact ⟨List.mem_cons_self _ _, hy⟩
        · obtain ⟨h1, h2⟩ := (ih (y :: seen) z).mp hz
          simp only [List.mem_cons, not_or] at h2
          exact ⟨List.mem_cons_of_mem _ h1, h2.2⟩
      · rintro ⟨h1, h2⟩
        rcases List.mem_cons.mp h1 with hz | hz
        · subst hz
          exact List.mem_cons_self _ _
        · by_cases hzy : z = y
          · subst hzy
            exact List.mem_cons_self _ _
          · refine List.mem_cons_of_mem _ ((ih (y :: seen) z).mpr ⟨hz, ?_⟩)
            simp [hzy, h2]

theorem mem_jsDedup (l : List String) (x : String) : x ∈ jsDedup l ↔ x ∈ l := by
  rw [jsDedup, mem_jsDedup_go]
  simp

/-- JavaScript `Set.prototype.intersection` on deduplicated lists: the
smaller set is iterated and filtered for membership in the other. -/
def jsSetIntersection (a b : List String) : List String :=
  if a.length ≤ b.length then a.filter (fun x => x ∈ b)
  else b.filter (fun x => x ∈ a)

/-- Embedding of `validateScopes` from `part_010`.  The guard
`!authorizeReq?.length || tokenReq === null || tokenReq === undefined`
returns `authorizeReq` unchanged; otherwise the result is
`[...new Set(parseScopes(tokenReq)).intersection(new Set(authorizeReq))]`. -/
def validateScopes (tokenReq : StrArg) (authorizeReq : Option (List String)) :
    Option (List String) :=
  match authorizeReq with
  | none => none
  | some auth =>
    if auth.length = 0 then some auth
    else
      match tokenReq with
      | .undef => some auth
      | .null => some auth
      | .str s => some (jsSetIntersection (jsDedup (parseScopes s)) (jsDedup auth))

/-! ### The `Storage` namespace wrapper (storage.ts) -/

/-- A pure model of a `StorageAdapter`: the four operations as abstract
functions, so that what the `Storage` namespace passes to them can be
observed. `V` is the value type, `R` the (opaque) result type of the
mutating operations. -/
structure StorageAdapter (V R : Type) where
  get : List String → Option V
  set : List String → V → Option Nat → R
  remove : List String → R
  scan : List String → List (List String × V)

/-- Embedding of `Storage.encode`:
`key.map((k) => k.replaceAll(SEPERATOR, ""))`. -/
def Storage.encode (key : List String) : List String :=
  key.map (fun k => String.mk (k.data.filter (fun c => c ≠ sepChar)))

/-- Embedding of `Storage.get`: delegates with the encoded key. -/
def Storage.get {V R : Type} (a : StorageAdapter V R) (key : List String) : Option V :=
  a.get (Storage.encode key)

/-- Embedding of `Storage.set`: delegates with the encoded key. -/
def Storage.set {V R : Type} (a : StorageAdapter V R) (key : List String) (v : V)
    (ttl : Option Nat) : R :=
  a.set (Storage.encode key) v ttl

/-- Embedding of `Storage.remove`: delegates with the encoded key. -/
def Storage.remove {V R : Type} (a : StorageAdapter V R) (key : List String) : R :=
  a.remove (Storage.encode key)

/-- Embedding of `Storage.scan`: delegates with the encoded key and
re-yields the adapter's pairs. -/
def Storage.scan {V R : Type} (a : StorageAdapter V R) (key : List String) :
    List (List String × V) :=
  a.scan (Storage.encode key)

/-! Helper lemmas on joining and splitting keys. -/

theorem string_data_append (a b : String) : (a ++ b).data = a.data ++ b.data := rfl

theorem splitOnCharL_no_sep {c : Char} {l : List Char} (h : c ∉ l) :
    splitOnCharL c l = [l] := by
  induction l with
  | nil => rfl
  | cons x xs ih =>
    simp only [List.mem_cons, not_or] at h
    simp only [splitOnCharL]
    rw [if_neg (fun hx => h.1 hx.symm)]
    rw [ih h.2]

theorem splitOnCharL_append_sep {c : Char} {l1 l2 : List Char} (h : c ∉ l1) :
    splitOnCharL c (l1 ++ c :: l2) = l1 :: splitOnCharL c l2 := by
  induction l1 with
  | nil => simp [splitOnCharL]
  | cons x xs ih =>
    simp only [List.mem_cons, not_or] at h
    have hx : ¬ x = c := fun hx => h.1 hx.symm
    have hr := ih h.2
    simp only [List.cons_append, splitOnCharL, List.append_eq, if_neg hx] at *
    rw [hr]

/-- For a non-empty list of separator-free segments, splitting the joined
key recovers exactly the original segments: no extra segments can appear. -/
theorem splitKey_joinKey (segs : List String)
    (hne : segs ≠ [])
    (hfree : ∀ s ∈ segs, sepChar ∉ s.data) :
    splitKey (joinKey segs) = segs := by
  induction segs with
  | nil => exact absurd rfl hne
  | cons s rest ih =>
    cases rest with
    | nil =>
      have hs := hfree s (by simp)
      simp only [joinKey, splitKey]
      rw [splitOnCharL_no_sep hs]
      simp
    | cons s2 rest2 =>
      have hs := hfree s (by simp)
      have hdata : (s ++ sepStr ++ joinKey (s2 :: rest2)).data
          = s.data ++ sepChar :: (joinKey (s2 :: rest2)).data := by
        rw [string_data_append, string_data_append]
        simp [sepStr]
      simp only [joinKey, splitKey]
      rw [hdata, splitOnCharL_append_sep hs]
      have ihr := ih (by simp) (fun x hx => hfree x (by simp [hx]))
      simp only [splitKey] at ihr
      simp [List.map_cons, ihr]

end OpenAuth

namespace OpenAuth

/-! ## Claim theorems for scopes, comparison, and key encoding -/

/-- C5: `parseScopes` splits a space-delimited scope string into its
non-empty tokens, and `validateScopes` returns the authorized list
unchanged when the token request scope is null/undefined or the authorized
list is empty/undefined, and otherwise intersects; including the five
concrete evaluations from the spec. -/
theorem validateScopes_spec :
    parseScopes "foo bar" = ["foo", "bar"] ∧
    validateScopes (.str "foo bar") (some ["foo"]) = some ["foo"] ∧
    validateScopes (.str "bar") (some ["foo"]) = some [] ∧
    validateScopes .null (some ["foo"]) = some ["foo"] ∧
    validateScopes (.str "foo") none = none ∧
    (∀ s, "" ∉ parseScopes s) ∧
    (∀ auth, validateScopes .null (some auth) = some auth) ∧
    (∀ auth, validateScopes .undef (some auth) = some auth) ∧
    (∀ t, validateScopes t none = none) ∧
    (∀ t, validateScopes t (some []) = some []) ∧
    (∀ s auth x, auth ≠ [] →
      (x ∈ (validateScopes (.str s) (some auth)).getD [] ↔
        x ∈ parseScopes s ∧ x ∈ auth)) := by
  refine ⟨by decide, by decide, by decide, rfl, rfl, ?_, ?_, ?_, ?_, ?_, ?_⟩
  · intro s hmem
    have := List.of_mem_filter hmem
    simp at this
  · intro auth
    simp only [validateScopes]
    split <;> simp_all
  · intro auth
    simp only [validateScopes]
    split <;> simp_all
  · intro t; rfl
  · intro t; simp [validateScopes]
  · intro s auth x hne
    have hlen : auth.length ≠ 0 := by simpa using hne
    simp only [validateScopes, if_neg hlen, Option.getD_some]
    simp only [jsSetIntersection]
    split <;> simp [List.mem_filter, mem_jsDedup, and_comm]

/-- C7 (code evaluation): the comparator returns `true` exactly on equal
strings, but its fallback `a === b` is a short-circuit scan whose
comparison count depends on the character contents: two equal-length
unequal pairs take 8 and 1 character comparisons respectively. -/
theorem timingSafeCompare_true_iff (a b : String) :
    timingSafeCompare a b = true ↔ a = b := by
  simp only [timingSafeCompare]
  split
  · constructor
    · intro h; cases h
    · intro h; subst h; simp_all
  · simp [String.ext_iff, beq_iff_eq, String.ext_iff]

theorem timingSafeCompare_eval :
    (∀ a b, timingSafeCompare a b = true ↔ a = b) ∧
    timingSafeCompare "aaaaaaaa" "aaaaaaab" = false ∧
    timingSafeCompare "aaaaaaaa" "baaaaaaa" = false ∧
    "aaaaaaab".data.length = "baaaaaaa".data.length ∧
    jsEqSteps "aaaaaaaa".data "aaaaaaab".data = 8 ∧
    jsEqSteps "aaaaaaaa".data "baaaaaaa".data = 1 := by
  exact ⟨timingSafeCompare_true_iff, by decide, by decide, by decide,
    by decide, by decide⟩

/-- C6: every key segment passed to an adapter by the `Storage` namespace
operations is the `Storage.encode` of the caller's segment, which contains
no occurrence of the reserved separator; consequently the joined encoded
key splits back into exactly the same segments (no smuggling). -/
theorem storage_encode_strips_separator {V R : Type} (a : StorageAdapter V R)
    (key : List String) (v : V) (ttl : Option Nat) (hne : key ≠ []) :
    (∀ s ∈ Storage.encode key, sepChar ∉ s.data) ∧
    Storage.get a key = a.get (Storage.encode key) ∧
    Storage.set a key v ttl = a.set (Storage.encode key) v ttl ∧
    Storage.remove a key = a.remove (Storage.encode key) ∧
    Storage.scan a key = a.scan (Storage.encode key) ∧
    splitKey (joinKey (Storage.encode key)) = Storage.encode key ∧
    (Storage.encode key).length = key.length := by
  have hfree : ∀ s ∈ Storage.encode key, sepChar ∉ s.data := by
    intro s hs
    simp only [Storage.encode, List.mem_map] at hs
    obtain ⟨k, _, hk⟩ := hs
    subst hk
    intro hmem
    have := List.of_mem_filter hmem
    simp at this
  refine ⟨hfree, rfl, rfl, rfl, rfl, ?_, by simp [Storage.encode]⟩
  exact splitKey_joinKey _ (by simpa [Storage.encode] using hne) hfree

/-- C6 witness: evaluation at the concrete key `["a<sep>b", "c"]`. -/
theorem storage_encode_strips_separator_witness :
    (∀ s ∈ Storage.encode ["a\x1fb", "c"], sepChar ∉ s.data) ∧
    splitKey (joinKey (Storage.encode ["a\x1fb", "c"])) = ["ab", "c"] := by
  have h := storage_encode_strips_separator
    (V := Unit) (R := Unit)
    ⟨fun _ => none, fun _ _ _ => (), fun _ => (), fun _ => []⟩
    ["a\x1fb", "c"] () none (by decide)
  refine ⟨h.1, ?_⟩
  have := h.2.2.2.2.2.1
  rw [this]
  decide

/-! ### PKCE (src/packages/openauth-go/internal/util/pkce.go)

The external primitives `crypto/sha256` and `crypto/rand` are parameters:
`sha256` is an arbitrary function from byte lists to byte lists and the
random source is a function from a requested length to that many bytes. -/

/-- UTF-8 encoding of a single character, the Go `[]byte(string)` view. -/
def utf8Bytes (c : Char) : List Nat :=
  let n := c.toNat
  if n < 0x80 then [n]
  else if n < 0x800 then [0xc0 + n / 64, 0x80 + n % 64]
  else if n < 0x10000 then [0xe0 + n / 4096, 0x80 + (n / 64) % 64, 0x80 + n % 64]
  else [0xf0 + n / 262144, 0x80 + (n / 4096) % 64, 0x80 + (n / 64) % 64, 0x80 + n % 64]

/-- The bytes of a string under UTF-8. -/
def strBytes (s : String) : List Nat := (s.data.map utf8Bytes).flatten

/-- The URL-safe base64 alphabet used by Go's `base64.URLEncoding`. -/
def b64UrlAlphabet : List Char :=
  "ABCDEFGHIJKLMNOPQRSTUVWXYZabcdefghijklmnopqrstuvwxyz0123456789-_".data

/-- The base64 character at a six-bit index. -/
def b64Char (n : Nat) : Char := b64UrlAlphabet.getD n 'A'

/-- Go `base64.URLEncoding.EncodeToString`: padded URL-safe base64. -/
def encodeBase64URL : List Nat → List Char
  | [] => []
  | [b1] =>
    let x := b1 % 256
    [b64Char (x / 4), b64Char ((x % 4) * 16), '=', '=']
  | [b1, b2] =>
    let x := b1 % 256
    let y := b2 % 256
    [b64Char (x / 4), b64Char ((x % 4) * 16 + y / 16), b64Char ((y % 16) * 4), '=']
  | b1 :: b2 :: b3 :: rest =>
    let x := b1 % 256
    let y := b2 % 256
    let z := b3 % 256
    b64Char (x / 4) :: b64Char ((x % 4) * 16 + y / 16) ::
      b64Char ((y % 16) * 4 + z / 64) :: b64Char (z % 64) :: encodeBase64URL rest

/-- Embedding of `generateChallenge` from `pkce.go`: the identity for the
`plain` method, otherwise base64-URL of the SHA-256 of the verifier's
bytes. -/
def generateChallenge (sha256 : List Nat → List Nat) (verifier method : String) :
    String :=
  if method = "plain" then verifier
  else String.mk (encodeBase64URL (sha256 (strBytes verifier)))

/-- Embedding of `ValidatePKCE` from `pkce.go`: regenerate the challenge
from the verifier under the given method and compare. The Go version also
returns an error value, but `generateChallenge` never fails. -/
def ValidatePKCE (sha256 : List Nat → List Nat)
    (verifier challenge method : String) : Bool :=
  generateChallenge sha256 verifier method == challenge

/-- Embedding of `generateVerifier` from `pkce.go`: base64-URL of `length`
random bytes. -/
def generateVerifier (randBytes : Nat → List Nat) (length : Nat) : String :=
  String.mk (encodeBase64URL (randBytes length))

/-- Embedding of `GeneratePKCE` from `pkce.go`: default length 64, rejected
outside 43..128, verifier from random bytes, challenge under `S256`. -/
def GeneratePKCE (sha256 : List Nat → List Nat) (randBytes : Nat → List Nat)
    (len : Option Nat) : Except String (String × String × String) :=
  let l := len.getD 64
  if l < 43 ∨ 128 < l then
    .error "code verifier length must be between 43 and 128 characters"
  else
    let verifier := generateVerifier randBytes l
    .ok (verifier, generateChallenge sha256 verifier "S256", "S256")

/-- C2: PKCE validation succeeds exactly when the method applied to the
verifier reproduces the challenge, where `plain` is the identity and `S256`
is the base64-URL-encoded SHA-256 of the verifier; every pair produced by
`GeneratePKCE` validates under `S256`. -/
theorem pkce_validate_spec (sha256 : List Nat → List Nat) (v c : String) :
    (ValidatePKCE sha256 v c "S256" = true ↔ generateChallenge sha256 v "S256" = c) ∧
    (ValidatePKCE sha256 v c "plain" = true ↔ v = c) ∧
    generateChallenge sha256 v "plain" = v ∧
    generateChallenge sha256 v "S256" = String.mk (encodeBase64URL (sha256 (strBytes v))) ∧
    (∀ randBytes len out, GeneratePKCE sha256 randBytes len = .ok out →
      out.2.2 = "S256" ∧ ValidatePKCE sha256 out.1 out.2.1 "S256" = true) := by
  have hplain : generateChallenge sha256 v "plain" = v := by
    simp [generateChallenge]
  have hs : generateChallenge sha256 v "S256"
      = String.mk (encodeBase64URL (sha256 (strBytes v))) := by
    simp only [generateChallenge]
    rw [if_neg (by decide)]
  refine ⟨?_, ?_, hplain, hs, ?_⟩
  · simp [ValidatePKCE]
  · simp [ValidatePKCE, hplain]
  · intro randBytes len out hok
    simp only [GeneratePKCE] at hok
    split at hok
    · cases hok
    · cases hok
      refine ⟨rfl, ?_⟩
      simp [ValidatePKCE]

/-- C2 witness: concrete instantiation with an explicit hash function and
byte source. -/
theorem pkce_validate_spec_witness :
    ValidatePKCE (fun _ => [1, 2, 3]) "abc" "abc" "plain" = true ∧
    ValidatePKCE (fun _ => [1, 2, 3])
      (generateVerifier (fun n => List.replicate n 7) 64)
      (generateChallenge (fun _ => [1, 2, 3])
        (generateVerifier (fun n => List.replicate n 7) 64) "S256") "S256" = true := by
  constructor
  · exact (pkce_validate_spec (fun _ => [1, 2, 3]) "abc" "abc").2.1.mpr rfl
  · exact ((pkce_validate_spec (fun _ => [1, 2, 3]) "abc" "abc").2.2.2.2
      (fun n => List.replicate n 7) none
      (generateVerifier (fun n => List.replicate n 7) 64,
        generateChallenge (fun _ => [1, 2, 3])
          (generateVerifier (fun n => List.replicate n 7) 64) "S256",
        "S256") rfl).2

/-! ### SQL LIKE matching and further key lemmas

The part_006 SQLite adapter's `scan` selects rows with
`key LIKE <joined prefix> || '%'`.  SQLite's default `LIKE` is
ASCII-case-insensitive, `%` matches any character sequence and `_` any
single character. -/

/-- SQLite `LIKE` pattern matching over character lists (default collation:
ASCII-case-insensitive; `%` and `_` wildcards; the adapters never use the
ESCAPE clause). -/
def likeMatch : List Char → List Char → Bool
  | [], s => s.isEmpty
  | pc :: ps, s =>
    if pc = '%' then s.tails.any (fun suf => likeMatch ps suf)
    else if pc = '_' then
      match s with
      | [] => false
      | _ :: s2 => likeMatch ps s2
    else
      match s with
      | [] => false
      | c :: s2 => (lowerAscii pc == lowerAscii c) && likeMatch ps s2

theorem likeMatch_wildcard_free (p : List Char) :
    ∀ s, (∀ c ∈ p, c ≠ '%' ∧ c ≠ '_') → likeMatch (p ++ ['%']) s = true →
      (p.map lowerAscii).isPrefixOf (s.map lowerAscii) = true := by
  induction p with
  | nil =>
    intro s _ _
    simp [List.isPrefixOf]
  | cons pc ps ih =>
    intro s hfree hm
    have hpc := hfree pc (by simp)
    simp only [List.cons_append, likeMatch, if_neg hpc.1, if_neg hpc.2] at hm
    cases s with
    | nil => cases hm
    | cons c s2 =>
      simp only [Bool.and_eq_true, beq_iff_eq] at hm
      have := ih s2 (fun x hx => hfree x (by simp [hx])) hm.2
      simp only [List.map_cons, List.isPrefixOf, hm.1, beq_self_eq_true,
        Bool.true_and]
      exact this

theorem splitOnCharL_ne_nil (c : Char) (l : List Char) : splitOnCharL c l ≠ [] := by
  cases l with
  | nil => simp [splitOnCharL]
  | cons x xs =>
    simp only [splitOnCharL]
    split
    · simp
    · split <;> simp

theorem string_mk_data (l : List Char) : (String.mk l).data = l := rfl

theorem string_eq_of_data {a b : String} (h : a.data = b.data) : a = b := by
  cases a
  cases b
  cases h
  rfl

theorem joinKey_splitOnCharL (l : List Char) :
    joinKey ((splitOnCharL sepChar l).map String.mk) = String.mk l := by
  induction l with
  | nil => rfl
  | cons x xs ih =>
    simp only [splitOnCharL]
    by_cases hx : x = sepChar
    · rw [if_pos hx]
      subst hx
      cases hsp : splitOnCharL sepChar xs with
      | nil => exact absurd hsp (splitOnCharL_ne_nil _ _)
      | cons h t =>
        rw [hsp] at ih
        apply string_eq_of_data
        have ihd := congrArg String.data ih
        simp only [List.map_cons, joinKey, string_data_append, sepStr,
          string_mk_data] at ihd ⊢
        simp only [List.nil_append, List.cons_append, List.append_assoc] at ihd ⊢
        rw [ihd]
    · rw [if_neg hx]
      cases hsp : splitOnCharL sepChar xs with
      | nil => exact absurd hsp (splitOnCharL_ne_nil _ _)
      | cons h t =>
        rw [hsp] at ih
        cases t with
        | nil =>
          simp only [List.map_cons, List.map_nil, joinKey] at ih ⊢
          have : h = xs := by
            have := congrArg String.data ih
            simpa [string_mk_data] using this
          subst this
          rfl
        | cons t1 t2 =>
          apply string_eq_of_data
          have ihd := congrArg String.data ih
          simp only [List.map_cons, joinKey, string_data_append, sepStr,
            string_mk_data, List.cons_append, List.append_assoc] at ihd ⊢
          rw [ihd]

theorem joinKey_splitKey (s : String) : joinKey (splitKey s) = s := by
  have := joinKey_splitOnCharL s.data
  rw [splitKey, this]

theorem joinKey_data_cons (s : String) (rest : List String) (h : rest ≠ []) :
    (joinKey (s :: rest)).data = s.data ++ sepChar :: (joinKey rest).data := by
  cases rest with
  | nil => exact absurd rfl h
  | cons r t =>
    simp [joinKey, string_data_append, sepStr, string_mk_data, List.append_assoc]

/-! ### SQLite adapter (src/unnamed/part_006)

The table `(key TEXT PRIMARY KEY, value TEXT, ttl INTEGER)` is a list of
rows; `JSON.parse . JSON.stringify` is taken as the identity, so values are
stored directly.  Wall-clock `Date.now()` (epoch milliseconds) is an
explicit argument.  Note: `set` stores the caller's relative `ttl`
(seconds) verbatim in the `ttl` column, while `cleanExpired` runs
`DELETE ... WHERE ttl < Date.now()`. -/

structure SqliteRow (V : Type) where
  key : String
  value : V
  ttlCol : Option Nat
deriving DecidableEq

/-- Embedding of `cleanExpired`: delete rows whose `ttl` column is below
`Date.now()`; a NULL `ttl` column never compares below anything. -/
def cleanExpired {V : Type} (nowMs : Nat) (t : List (SqliteRow V)) :
    List (SqliteRow V) :=
  t.filter (fun r =>
    match r.ttlCol with
    | none => true
    | some v => decide (nowMs ≤ v))

/-- Embedding of the part_006 `set`: `INSERT OR REPLACE` with the raw
relative `ttl` in the ttl column. -/
def sqliteSet {V : Type} (t : List (SqliteRow V)) (key : List String) (value : V)
    (ttl : Option Nat) : List (SqliteRow V) :=
  let joined := joinKey key
  t.filter (fun r => r.key ≠ joined) ++ [⟨joined, value, ttl⟩]

/-- Embedding of the part_006 `get`: `cleanExpired` first, then select by
exact key.  Returns the value and the table after the lazy deletion. -/
def sqliteGet {V : Type} (nowMs : Nat) (t : List (SqliteRow V)) (key : List String) :
    Option V × List (SqliteRow V) :=
  let t2 := cleanExpired nowMs t
  ((t2.find? (fun r => r.key == joinKey key)).map (fun r => r.value), t2)

/-- Embedding of the part_006 `scan`: `cleanExpired` first, then
`SELECT ... WHERE key LIKE <joined prefix> || '%'`, yielding split keys. -/
def sqliteScan {V : Type} (nowMs : Nat) (t : List (SqliteRow V)) (pfx : List String) :
    List (List String × V) × List (SqliteRow V) :=
  let t2 := cleanExpired nowMs t
  let pat := (joinKey pfx).data ++ ['%']
  ((t2.filter (fun r => likeMatch pat r.key.data)).map
      (fun r => (splitKey r.key, r.value)),
    t2)

/-! ### DynamoDB adapter (packages/openauth/src/storage/dynamo.ts)

The table is a list of items keyed by a partition/sort pair; `Query` is the
pk-equality (plus optional `begins_with` on sk) filter; expiry is epoch
seconds compared against `Date.now() / 1000` (exact rational comparison
`e < nowMs / 1000` is encoded as `e * 1000 < nowMs`). -/

structure DynItem (V : Type) where
  pk : String
  sk : String
  expiry : Option Nat
  value : V
deriving DecidableEq

/-- Embedding of `parseKey`: a two-segment key maps directly, otherwise the
first two segments join into the partition key and the rest into the sort
key. -/
def dynParseKey (key : List String) : String × String :=
  if key.length = 2 then (key.headD "", (key.drop 1).headD "")
  else (joinKey (key.take 2), joinKey (key.drop 2))

/-- Embedding of the dynamo `set`: `PutItem` with
`expiry = floor(Date.now()/1000) + ttl` only when `ttl` is truthy (so a
`ttl` of 0, like an absent one, stores no expiry attribute). -/
def dynamoSet {V : Type} (nowMs : Nat) (t : List (DynItem V)) (key : List String)
    (value : V) (ttl : Option Nat) : List (DynItem V) :=
  let pq := dynParseKey key
  let expiry := match ttl with
    | some v => if v = 0 then none else some (nowMs / 1000 + v)
    | none => none
  t.filter (fun it => ¬ (it.pk = pq.1 ∧ it.sk = pq.2)) ++ [⟨pq.1, pq.2, expiry, value⟩]

/-- Embedding of the dynamo `get`: `GetItem`, then hide the item when its
expiry has passed. -/
def dynamoGet {V : Type} (nowMs : Nat) (t : List (DynItem V)) (key : List String) :
    Option V :=
  let pq := dynParseKey key
  match t.find? (fun it => it.pk == pq.1 && it.sk == pq.2) with
  | none => none
  | some it =>
    match it.expiry with
    | some e => if e * 1000 < nowMs then none else some it.value
    | none => some it.value

/-- The partition-key component of a scan prefix:
`prefix.length >= 2 ? joinKey(prefix.slice(0, 2)) : prefix[0]`. -/
def dynPfxPk (pfx : List String) : String :=
  if 2 ≤ pfx.length then joinKey (pfx.take 2) else pfx.headD ""

/-- The sort-key component of a scan prefix:
`prefix.length > 2 ? joinKey(prefix.slice(2)) : ""`. -/
def dynPfxSk (pfx : List String) : String :=
  if 2 < pfx.length then joinKey (pfx.drop 2) else ""

/-- Embedding of the dynamo `scan`: partition key from the first one or two
segments, `begins_with` on the sort key only when more than two segments
were given, expired items skipped; each yielded key is the two-element
`[pk, sk]` pair. -/
def dynamoScan {V : Type} (nowMs : Nat) (t : List (DynItem V)) (pfx : List String) :
    List (List String × V) :=
  let ppk := dynPfxPk pfx
  let psk := dynPfxSk pfx
  (t.filter (fun it =>
      it.pk == ppk &&
      (psk == "" || psk.data.isPrefixOf it.sk.data) &&
      !(match it.expiry with
        | some e => decide (e * 1000 < nowMs)
        | none => false))).map
    (fun it => ([it.pk, it.sk], it.value))

/-! ### unstorage adapter (packages/openauth/src/storage/unstorage.ts)

Entries are `(joined key, value, expiry?)` where `set` receives a `Date`
(modelled as epoch milliseconds).  The external `unstorage` driver's
`getKeys(base)` is modelled per its contract: the stored keys that begin
with the base string. -/

structure UnEntry (V : Type) where
  value : V
  expiry : Option Nat
deriving DecidableEq

/-- The JavaScript truthiness-guarded expiry test
`entry.expiry && Date.now() >= entry.expiry` (an expiry of 0 is falsy). -/
def unExpired (nowMs : Nat) (e : Option Nat) : Bool :=
  match e with
  | some v => decide (v ≠ 0 ∧ v ≤ nowMs)
  | none => false

/-- Embedding of the unstorage `set`: store the value with the `Date`
argument's epoch-millisecond time as expiry. -/
def unSet {V : Type} (store : List (String × UnEntry V)) (key : List String)
    (value : V) (expiryMs : Option Nat) : List (String × UnEntry V) :=
  let k := joinKey key
  store.filter (fun p => p.1 ≠ k) ++ [(k, ⟨value, expiryMs⟩)]

/-- Embedding of the unstorage `get`: lazily remove and hide an expired
entry. -/
def unGet {V : Type} (nowMs : Nat) (store : List (String × UnEntry V))
    (key : List String) : Option V × List (String × UnEntry V) :=
  let k := joinKey key
  match store.find? (fun p => p.1 == k) with
  | none => (none, store)
  | some p =>
    if unExpired nowMs p.2.expiry then (none, store.filter (fun q => q.1 ≠ k))
    else (some p.2.value, store)

/-- Embedding of the unstorage `scan`: keys beginning with the joined
prefix, expired entries skipped, keys split back into segments. -/
def unScan {V : Type} (nowMs : Nat) (store : List (String × UnEntry V))
    (pfx : List String) : List (List String × V) :=
  let base := joinKey pfx
  ((store.filter (fun p => base.data.isPrefixOf p.1.data)).filter
      (fun p => !unExpired nowMs p.2.expiry)).map
    (fun p => (splitKey p.1, p.2.value))

theorem mem_cleanExpired {V : Type} {nowMs : Nat} {t : List (SqliteRow V)}
    {r : SqliteRow V} :
    r ∈ cleanExpired nowMs t ↔
      r ∈ t ∧ (r.ttlCol = none ∨ ∃ v, r.ttlCol = some v ∧ nowMs ≤ v) := by
  simp only [cleanExpired, List.mem_filter]
  constructor
  · rintro ⟨hm, hc⟩
    refine ⟨hm, ?_⟩
    cases hr : r.ttlCol with
    | none => exact Or.inl rfl
    | some v =>
      rw [hr] at hc
      simp only [decide_eq_true_eq] at hc
      exact Or.inr ⟨v, rfl, hc⟩
  · rintro ⟨hm, hor⟩
    refine ⟨hm, ?_⟩
    rcases hor with h | ⟨v, hv, hle⟩
    · rw [h]
    · rw [hv]
      simpa using hle

/-- C3 (code evaluation): the part_006 SQLite adapter writes the relative
`ttl` of 60 seconds verbatim into the ttl column, so a `get` one second
after `set` at epoch 1700000000000 ms already deletes and misses the entry,
even though the intended expiry of 60 seconds has not elapsed. -/
theorem sqlite_ttl_immediate_expiry :
    (sqliteGet (1700000000000 + 1000)
        (sqliteSet ([] : List (SqliteRow String)) ["k"] "v" (some 60)) ["k"]).1
      = none ∧
    1700000000000 + 1000 < 1700000000000 + 60 * 1000 := by
  constructor
  · decide
  · decide

/-- C4 counterexample: a single unexpired row with key `abc` and the scan
prefix `a_c`; the SQL LIKE wildcard `_` makes the row match, yet the joined
yielded key `abc` does not begin with the joined prefix `a_c`. -/
theorem sqlite_scan_like_counterexample :
    (["abc"], "v") ∈
      (sqliteScan 0 ([⟨"abc", "v", none⟩] : List (SqliteRow String)) ["a_c"]).1 ∧
    (joinKey ["a_c"]).data.isPrefixOf (joinKey ["abc"]).data = false := by
  constructor
  · decide
  · decide

theorem joinKey_pair_data (a b : String) :
    (joinKey [a, b]).data = a.data ++ sepChar :: b.data := by
  have h := joinKey_data_cons a [b] (by simp)
  simpa [joinKey] using h

theorem prefix_extend {α : Type} (x : List α) (c : α) {l m : List α}
    (h : l <+: m) : x ++ c :: l <+: x ++ c :: m := by
  obtain ⟨t, ht⟩ := h
  refine ⟨t, ?_⟩
  simp [List.append_assoc, ← ht]

/-- C4 (amended): for the part_006 SQLite adapter, `scan` yields exactly
the unexpired rows whose key matches the SQL LIKE pattern
`<joined prefix>%`, so the joined yielded key begins with the joined prefix
only up to LIKE semantics — exactly (up to ASCII case) when the prefix
contains no `%` or `_`; for the DynamoDB and unstorage adapters every
yielded joined key begins with the joined prefix outright; none of the
three ever yields an entry whose expiry has passed. -/
theorem scan_prefix_amended {V : Type} (nowMs : Nat) (table : List (SqliteRow V))
    (items : List (DynItem V)) (store : List (String × UnEntry V))
    (pfx : List String) :
    (∀ pr ∈ (sqliteScan nowMs table pfx).1,
      likeMatch ((joinKey pfx).data ++ ['%']) (joinKey pr.1).data = true ∧
      ∃ r ∈ table, pr = (splitKey r.key, r.value) ∧
        (r.ttlCol = none ∨ ∃ v, r.ttlCol = some v ∧ nowMs ≤ v ∧
          ∀ t0, ¬ (t0 + v * 1000 < nowMs))) ∧
    ((∀ c ∈ (joinKey pfx).data, c ≠ '%' ∧ c ≠ '_') →
      ∀ pr ∈ (sqliteScan nowMs table pfx).1,
        ((joinKey pfx).data.map lowerAscii).isPrefixOf
          ((joinKey pr.1).data.map lowerAscii) = true) ∧
    (pfx ≠ [] → ∀ pr ∈ dynamoScan nowMs items pfx,
      (joinKey pfx).data.isPrefixOf (joinKey pr.1).data = true ∧
      ∃ it ∈ items, pr = ([it.pk, it.sk], it.value) ∧
        (it.expiry = none ∨ ∃ e, it.expiry = some e ∧ ¬ (e * 1000 < nowMs))) ∧
    (∀ pr ∈ unScan nowMs store pfx,
      (joinKey pfx).data.isPrefixOf (joinKey pr.1).data = true ∧
      ∃ p ∈ store, pr = (splitKey p.1, p.2.value) ∧
        unExpired nowMs p.2.expiry = false) := by
  have hsq : ∀ pr ∈ (sqliteScan nowMs table pfx).1,
      likeMatch ((joinKey pfx).data ++ ['%']) (joinKey pr.1).data = true ∧
      ∃ r ∈ table, pr = (splitKey r.key, r.value) ∧
        (r.ttlCol = none ∨ ∃ v, r.ttlCol = some v ∧ nowMs ≤ v ∧
          ∀ t0, ¬ (t0 + v * 1000 < nowMs)) := by
    intro pr hpr
    simp only [sqliteScan] at hpr
    obtain ⟨r, hrf, heq⟩ := List.mem_map.mp hpr
    obtain ⟨hrc, hlike⟩ := List.mem_filter.mp hrf
    obtain ⟨hrt, httl⟩ := mem_cleanExpired.mp hrc
    subst heq
    constructor
    · rw [joinKey_splitKey]
      exact hlike
    · refine ⟨r, hrt, rfl, ?_⟩
      rcases httl with h | ⟨v, hv, hle⟩
      · exact Or.inl h
      · exact Or.inr ⟨v, hv, hle, fun t0 => by omega⟩
  refine ⟨hsq, ?_, ?_, ?_⟩
  · intro hfree pr hpr
    exact likeMatch_wildcard_free _ _ hfree (hsq pr hpr).1
  · intro hne pr hpr
    simp only [dynamoScan] at hpr
    obtain ⟨it, hitf, heq⟩ := List.mem_map.mp hpr
    obtain ⟨hitm, hcond⟩ := List.mem_filter.mp hitf
    subst heq
    simp only [Bool.and_eq_true, Bool.or_eq_true, beq_iff_eq,
      Bool.not_eq_true'] at hcond
    obtain ⟨⟨hpk, hsk⟩, hexp⟩ := hcond
    refine ⟨?_, it, hitm, rfl, ?_⟩
    · rw [List.isPrefixOf_iff_prefix, joinKey_pair_data]
      rcases pfx with _ | ⟨p0, _ | ⟨p1, _ | ⟨p2, rest2⟩⟩⟩
      · exact absurd rfl hne
      · have hp : dynPfxPk [p0] = p0 := by
          simp only [dynPfxPk, List.length_cons, List.length_nil]
          rw [if_neg (by omega)]
          rfl
        rw [hp] at hpk
        rw [hpk]
        show (joinKey [p0]).data <+: p0.data ++ sepChar :: it.sk.data
        exact List.prefix_append _ _
      · have hp : dynPfxPk [p0, p1] = joinKey [p0, p1] := by
          simp only [dynPfxPk, List.length_cons, List.length_nil]
          rw [if_pos (by omega)]
          rfl
        rw [hp] at hpk
        rw [hpk]
        exact ⟨sepChar :: it.sk.data, rfl⟩
      · have hp : dynPfxPk (p0 :: p1 :: p2 :: rest2) = joinKey [p0, p1] := by
          simp only [dynPfxPk, List.length_cons]
          rw [if_pos (by omega)]
          rfl
        have hs : dynPfxSk (p0 :: p1 :: p2 :: rest2) = joinKey (p2 :: rest2) := by
          simp only [dynPfxSk, List.length_cons]
          rw [if_pos (by omega)]
          rfl
        rw [hp] at hpk
        rw [hs] at hsk
        have hjoin : (joinKey (p0 :: p1 :: p2 :: rest2)).data
            = (joinKey [p0, p1]).data ++ sepChar :: (joinKey (p2 :: rest2)).data := by
          rw [joinKey_data_cons p0 (p1 :: p2 :: rest2) (by simp),
            joinKey_data_cons p1 (p2 :: rest2) (by simp),
            joinKey_pair_data]
          simp [List.append_assoc]
        rw [hjoin, hpk]
        rcases hsk with hsk | hsk
        · have : (joinKey (p2 :: rest2)).data = [] := by
            rw [hsk]
          rw [this]
          exact prefix_extend _ _ List.nil_prefix
        · exact prefix_extend _ _ (List.isPrefixOf_iff_prefix.mp hsk)
    · have hexp2 : ∀ x, it.expiry = x →
          x = none ∨ ∃ e, x = some e ∧ ¬ (e * 1000 < nowMs) := by
        intro x hx
        rw [hx] at hexp
        cases x with
        | none => exact Or.inl rfl
        | some e =>
          right
          refine ⟨e, rfl, fun hlt => ?_⟩
          simp [hlt] at hexp
      rcases hexp2 it.expiry rfl with h | ⟨e, he, hlt⟩
      · exact Or.inl h
      · exact Or.inr ⟨e, he, hlt⟩
  · intro pr hpr
    simp only [unScan] at hpr
    obtain ⟨p, hpf, heq⟩ := List.mem_map.mp hpr
    obtain ⟨hpf1, hexp⟩ := List.mem_filter.mp hpf
    obtain ⟨hpm, hpre⟩ := List.mem_filter.mp hpf1
    subst heq
    refine ⟨?_, p, hpm, rfl, ?_⟩
    · rw [joinKey_splitKey]
      exact hpre
    · simpa using hexp

/-- C4 amended witness: concrete scans over one-row stores. -/
theorem scan_prefix_amended_witness :
    ((joinKey ["a"]).data.map lowerAscii).isPrefixOf
      ((joinKey (["ab"] : List String)).data.map lowerAscii) = true ∧
    (joinKey ["a"]).data.isPrefixOf (joinKey ["a", "s"]).data = true := by
  have h := scan_prefix_amended (V := String) 0 [⟨"ab", "v", none⟩]
    [⟨"a", "s", none, "v"⟩] [("ab", ⟨"v", none⟩)] ["a"]
  constructor
  · exact h.2.1 (by decide) (["ab"], "v") (by decide)
  · exact (h.2.2.1 (by decide) (["a", "s"], "v") (by decide)).1

/-! ### Password provider (packages/openauth/src/provider/password.ts)

The register and change POST handlers.  The hasher is a parameter
(`hashFn`), as is the generated six-digit code (`genCode`); `sendCode` is
an external side effect with no bearing on state.  Hash values are
modelled as strings: every hash produced by the source's hashers is a
non-empty object, so JavaScript truthiness of a stored hash coincides with
presence.  Conversation state (`ctx.get`/`ctx.set` under the provider
slot) is separate from `ctx.storage` and is threaded as the state/result
pair. -/

/-- Whether an optional string form field is truthy in JavaScript
(`undefined` and `""` are falsy). -/
def strTruthy (s : Option String) : Bool :=
  match s with
  | none => false
  | some v => v ≠ ""

/-- A POST form for the password routes. -/
structure PwForm where
  email : Option String
  action : Option String
  password : Option String
  repeatP : Option String
  code : Option String
deriving DecidableEq

/-- The provider-owned hash store: the association of full storage keys to
stored password hashes. -/
def PwStore : Type := List (List String × String)

instance : DecidableEq PwStore := by
  unfold PwStore
  infer_instance

/-- The storage key for an email's password hash, as the provider passes it
through `Storage.get`/`Storage.set`. -/
def pwKey (email : String) : List String :=
  Storage.encode ["email", email, "password"]

/-- Look up the stored hash for an email. -/
def pwGet (store : PwStore) (email : String) : Option String :=
  (store.find? (fun p => p.1 == pwKey email)).map (fun p => p.2)

/-- Store a hash for an email. -/
def pwSet (store : PwStore) (email : String) (hash : String) : PwStore :=
  store.filter (fun p => p.1 ≠ pwKey email) ++ [(pwKey email, hash)]

/-- `PasswordRegisterState` from password.ts. -/
inductive PRegisterState where
  | start
  | code (code email password : String)
deriving DecidableEq

/-- `PasswordRegisterError` from password.ts. -/
inductive PRegisterError where
  | invalid_code
  | email_taken
  | invalid_email
  | invalid_password
  | password_mismatch
deriving DecidableEq

/-- Outcome of a register POST: render the next conversation state with an
optional error, succeed with the email, or throw (reading `.type` of an
undefined conversation state). -/
inductive RegOutcome where
  | render (next : PRegisterState) (err : Option PRegisterError)
  | success (email : String)
  | throwTypeError
deriving DecidableEq

/-- Embedding of the `POST /register` handler of the password provider. -/
def handleRegisterPost (hashFn : String → String) (genCode : String)
    (fd : PwForm) (conv : Option PRegisterState) (store : PwStore) :
    RegOutcome × PwStore :=
  match conv with
  | none => (.throwTypeError, store)
  | some st =>
    match st with
    | .start =>
      if fd.action = some "register" then
        if ¬ strTruthy (fd.email.map lowerStr) then
          (.render .start (some .invalid_email), store)
        else if ¬ strTruthy fd.password then
          (.render .start (some .invalid_password), store)
        else if fd.password ≠ fd.repeatP then
          (.render .start (some .password_mismatch), store)
        else
          let e := (fd.email.map lowerStr).getD ""
          match pwGet store e with
          | some _ => (.render .start (some .email_taken), store)
          | none =>
            (.render (.code genCode e (hashFn (fd.password.getD ""))) none, store)
      else (.render .start none, store)
    | .code c e pw =>
      if fd.action = some "verify" then
        if ¬ (strTruthy fd.code && timingSafeCompare (fd.code.getD "") c) then
          (.render (.code c e pw) (some .invalid_code), store)
        else
          match pwGet store e with
          | some _ => (.render .start (some .email_taken), store)
          | none => (.success e, pwSet store e pw)
      else (.render .start none, store)

/-- `PasswordChangeState` from password.ts. -/
inductive PChangeState where
  | start (redirect : String)
  | code (code email redirect : String)
  | update (redirect email : String)
deriving DecidableEq

/-- The `redirect` field every change-state variant carries. -/
def PChangeState.red : PChangeState → String
  | .start r => r
  | .code _ _ r => r
  | .update r _ => r

/-- `PasswordChangeError` from password.ts. -/
inductive PChangeError where
  | invalid_email
  | invalid_code
  | invalid_password
  | password_mismatch
deriving DecidableEq

/-- Outcome of a change POST: render the next state with an optional error,
redirect, or throw `UnknownStateError` when the conversation is missing. -/
inductive ChOutcome where
  | render (next : PChangeState) (err : Option PChangeError)
  | redirected (url : String)
  | throwUnknownState
deriving DecidableEq

/-- Embedding of the `POST /change` handler of the password provider.  The
subject lookup and `ctx.invalidate` after a successful hash write touch a
different key family and are omitted. -/
def handleChangePost (hashFn : String → String) (genCode : String) (fd : PwForm)
    (conv : Option PChangeState) (store : PwStore) : ChOutcome × PwStore :=
  match conv with
  | none => (.throwUnknownState, store)
  | some st =>
    if fd.action = some "code" then
      if strTruthy (fd.email.map lowerStr) then
        (.render (.code genCode ((fd.email.map lowerStr).getD "") st.red) none,
          store)
      else (.render (.start st.red) (some .invalid_email), store)
    else if fd.action = some "verify" then
      match st with
      | .code c e r =>
        if strTruthy fd.code && timingSafeCompare (fd.code.getD "") c then
          (.render (.update r e) none, store)
        else (.render (.code c e r) (some .invalid_code), store)
      | _ => (.render (.start st.red) none, store)
    else if fd.action = some "update" then
      match st with
      | .update r e =>
        match pwGet store e with
        | none => (.redirected r, store)
        | some _ =>
          if ¬ strTruthy fd.password then
            (.render (.update r e) (some .invalid_password), store)
          else if fd.password ≠ fd.repeatP then
            (.render (.update r e) (some .password_mismatch), store)
          else (.redirected r, pwSet store e (hashFn (fd.password.getD "")))
      | _ => (.render (.start st.red) none, store)
    else (.render (.start st.red) none, store)

/-- C9 counterexample: the claim asserts the existence of a non-`update`
conversation state from which `action=update` writes a password hash; no
such state exists — the handler's update branch is guarded by
`provider.type === "update"` and every other branch leaves the hash store
unchanged. -/
theorem password_change_update_gated :
    ¬ ∃ (hashFn : String → String) (genCode : String) (fd : PwForm)
        (store : PwStore) (st : PChangeState),
        (∀ r e, st ≠ .update r e) ∧ fd.action = some "update" ∧
        (handleChangePost hashFn genCode fd (some st) store).2 ≠ store := by
  rintro ⟨hashFn, genCode, fd, store, st, hne, hact, hwrite⟩
  apply hwrite
  simp only [handleChangePost, hact]
  simp

/-- C9 (amended): the `update` action is accepted only when the stored
conversation state's type is `update`; from every other state a POST to
/change with `action=update` writes nothing and renders the start state. -/
theorem password_change_update_requires_update_state
    (hashFn : String → String) (genCode : String) (fd : PwForm)
    (store : PwStore) (st : PChangeState)
    (hne : ∀ r e, st ≠ .update r e) (hact : fd.action = some "update") :
    handleChangePost hashFn genCode fd (some st) store
      = (.render (.start st.red) none, store) := by
  simp only [handleChangePost, hact]
  simp

/-- C9 amended witness: a concrete `code`-typed state with `action=update`
renders the start state and leaves the store unchanged. -/
theorem password_change_update_requires_update_state_witness :
    handleChangePost (fun s => s) "123456"
        ⟨none, some "update", some "pw", some "pw", none⟩
        (some (.code "1" "a@b.c" "u")) [] =
      (.render (.start "u") none, []) := by
  exact password_change_update_requires_update_state (fun s => s) "123456"
    ⟨none, some "update", some "pw", some "pw", none⟩ [] (.code "1" "a@b.c" "u")
    (fun r e h => by cases h) rfl

/-- C10: the register flow writes a password hash only when the lookup of
`["email", e, "password"]` returned absent, and when a hash already exists
both the initial register step and the code-verify step return
`email_taken` leaving the store unchanged. -/
theorem password_register_no_overwrite (hashFn : String → String)
    (genCode : String) (fd : PwForm) (conv : Option PRegisterState)
    (store : PwStore) :
    ((handleRegisterPost hashFn genCode fd conv store).2 ≠ store →
      ∃ c e pw, conv = some (.code c e pw) ∧
        (handleRegisterPost hashFn genCode fd conv store).1 = .success e ∧
        pwGet store e = none ∧
        (handleRegisterPost hashFn genCode fd conv store).2 = pwSet store e pw) ∧
    (∀ c e pw h, conv = some (.code c e pw) → fd.action = some "verify" →
      (strTruthy fd.code && timingSafeCompare (fd.code.getD "") c) = true →
      pwGet store e = some h →
      handleRegisterPost hashFn genCode fd conv store
        = (.render .start (some .email_taken), store)) ∧
    (∀ e h, conv = some .start → fd.action = some "register" →
      fd.email.map lowerStr = some e → e ≠ "" →
      strTruthy fd.password = true → fd.password = fd.repeatP →
      pwGet store e = some h →
      handleRegisterPost hashFn genCode fd conv store
        = (.render .start (some .email_taken), store)) := by
  refine ⟨?_, ?_, ?_⟩
  · intro hw
    cases conv with
    | none => exact absurd rfl hw
    | some st =>
      cases st with
      | start =>
        exfalso
        apply hw
        simp only [handleRegisterPost]
        split
        · split
          · rfl
          · split
            · rfl
            · split
              · rfl
              · split
                · rfl
                · rfl
        · rfl
      | code c e pw =>
        by_cases hact : fd.action = some "verify"
        · by_cases hcode :
            (strTruthy fd.code && timingSafeCompare (fd.code.getD "") c) = true
          · cases hget : pwGet store e with
            | some h =>
              exfalso
              apply hw
              simp only [handleRegisterPost, if_pos hact]
              rw [if_neg (by simp [hcode]), hget]
            | none =>
              refine ⟨c, e, pw, rfl, ?_, hget, ?_⟩
              · simp only [handleRegisterPost, if_pos hact]
                rw [if_neg (by simp [hcode]), hget]
              · simp only [handleRegisterPost, if_pos hact]
                rw [if_neg (by simp [hcode]), hget]
          · exfalso
            apply hw
            simp only [handleRegisterPost, if_pos hact]
            rw [if_pos (by simp [hcode])]
        · exfalso
          apply hw
          simp only [handleRegisterPost, if_neg hact]
  · intro c e pw h hconv hact hcode hget
    subst hconv
    simp only [handleRegisterPost, if_pos hact]
    rw [if_neg (by simp [hcode]), hget]
  · intro e h hconv hact hemail hene hpw hrep hget
    subst hconv
    simp only [handleRegisterPost, if_pos hact]
    rw [if_neg (by simp [strTruthy, hemail, hene])]
    rw [if_neg (by simp [hpw])]
    rw [if_neg (by simp [hrep])]
    rw [hemail]
    simp only [Option.getD_some]
    rw [hget]

/-- C10 witness: with a hash already stored for `a@b.c`, the verify step
returns `email_taken` and leaves the store unchanged. -/
theorem password_register_no_overwrite_witness :
    handleRegisterPost (fun s => s) "123456"
        ⟨some "a@b.c", some "verify", none, none, some "1"⟩
        (some (.code "1" "a@b.c" "hh")) [(pwKey "a@b.c", "old")] =
      (.render .start (some .email_taken), [(pwKey "a@b.c", "old")]) := by
  exact (password_register_no_overwrite (fun s => s) "123456"
      ⟨some "a@b.c", some "verify", none, none, some "1"⟩
      (some (.code "1" "a@b.c" "hh")) [(pwKey "a@b.c", "old")]).2.1
    "1" "a@b.c" "hh" "old" rfl rfl (by decide) (by decide)

/-! ### WebAuthn provider (src/unnamed/part_005)

The external `@oslojs/webauthn` and `@oslojs/crypto` primitives are
parameters of the environment: parsing of the submitted base64 client data
and authenticator data, credential lookup, and the DER-decoded
ECDSA-over-P-256 verification of the SHA-256 of the assertion message.
`verifyAuthn` is not configured, so the default `verifyWebAuthn` runs. -/

/-- The `@oslojs/webauthn` `ClientDataType` values. -/
inductive CDType where
  | get
  | create
deriving DecidableEq

/-- A parsed `clientDataJSON`: its type, the text-decoded challenge, the
origin, and the optional `crossOrigin` flag (`none` models `null`). -/
structure ClientData where
  cdType : CDType
  challenge : String
  origin : String
  crossOrigin : Option Bool
deriving DecidableEq

/-- Parsed authenticator data: the relying-party-ID-hash check and the two
flags. -/
structure AuthData where
  rpIdHashValid : String → Bool
  userPresent : Bool
  userVerified : Bool

/-- A credential returned by the caller-supplied `getCredential`. -/
structure WebCredential where
  publicKey : String
  claims : String
deriving DecidableEq

/-- The environment of a WebAuthn POST: parsing/crypto oracles, credential
lookup, configured relying-party ID and origin, and the freshly generated
challenge a failure restart would store. -/
structure WebAuthnEnv where
  parseCD : String → ClientData
  parseAD : String → AuthData
  getCredential : String → Option WebCredential
  sigValid : String → String → String → String → Bool
  rpId : String
  origin : String
  newChallenge : String

/-- The conversation state of the WebAuthn flow (always of type `start`). -/
structure WState where
  challenge : String
deriving DecidableEq

/-- The submitted POST form fields. -/
structure WForm where
  credentialId : Option String
  signature : Option String
  authData : Option String
  clientDataJSON : Option String
deriving DecidableEq

/-- `WebAuthnProviderError` from part_005. -/
inductive WErr where
  | invalid_challenge
  | invalid_rp_id
  | invalid_origin
  | invalid_cross_origin
  | invalid_signature
  | invalid_client_data_type
  | credential_not_found
  | unresolved
  | rejected
deriving DecidableEq

/-- Outcome of the POST: terminate the conversation via `ctx.success`, or
render a fresh `start` state with a new challenge and an error. -/
inductive WOutcome where
  | success (cred : WebCredential)
  | restart (next : WState) (err : WErr)
deriving DecidableEq

/-- Embedding of the default `verifyWebAuthn` from part_005: rpIdHash,
user-present and user-verified flags, client data type `Get`, origin,
`crossOrigin !== null && crossOrigin`, then the ECDSA signature over the
SHA-256 of the assertion message. -/
def verifyWebAuthn (env : WebAuthnEnv) (pk sig ad cdj : String) : Option WErr :=
  let adp := env.parseAD ad
  if ¬ adp.rpIdHashValid env.rpId then some .invalid_rp_id
  else if ¬ (adp.userPresent && adp.userVerified) then some .rejected
  else
    let cd := env.parseCD cdj
    if cd.cdType ≠ .get then some .invalid_client_data_type
    else if cd.origin ≠ env.origin then some .invalid_origin
    else if (match cd.crossOrigin with | some b => b | none => false) then
      some .invalid_cross_origin
    else if ¬ env.sigValid pk sig ad cdj then some .invalid_signature
    else none

/-- Embedding of the WebAuthn `POST /authorize` route (part_005, default
verification): require a `start` conversation state and all four truthy
form fields, compare the stored challenge with the client data challenge
via `timingSafeCompare`, look up the credential, run `verifyWebAuthn`;
any failure re-renders a fresh `start` state with the new challenge. -/
def webauthnPost (env : WebAuthnEnv) (state : Option WState) (fd : WForm) :
    WOutcome :=
  let fresh : WState := ⟨env.newChallenge⟩
  match state with
  | none => .restart fresh .unresolved
  | some st =>
    if strTruthy fd.credentialId && strTruthy fd.signature &&
        strTruthy fd.authData && strTruthy fd.clientDataJSON then
      let cdjStr := fd.clientDataJSON.getD ""
      let cd := env.parseCD cdjStr
      if timingSafeCompare st.challenge cd.challenge then
        match env.getCredential (fd.credentialId.getD "") with
        | none => .restart fresh .credential_not_found
        | some res =>
          match verifyWebAuthn env res.publicKey (fd.signature.getD "")
              (fd.authData.getD "") cdjStr with
          | some err => .restart fresh err
          | none => .success res
      else .restart fresh .invalid_challenge
    else .restart fresh .unresolved

theorem verifyWebAuthn_none_iff (env : WebAuthnEnv) (pk sig ad cdj : String) :
    verifyWebAuthn env pk sig ad cdj = none ↔
      ((env.parseAD ad).rpIdHashValid env.rpId = true ∧
        (env.parseAD ad).userPresent = true ∧
        (env.parseAD ad).userVerified = true ∧
        (env.parseCD cdj).cdType = .get ∧
        (env.parseCD cdj).origin = env.origin ∧
        (env.parseCD cdj).crossOrigin ≠ some true ∧
        env.sigValid pk sig ad cdj = true) := by
  have hco : ∀ co : Option Bool,
      ((match co with | some b => b | none => false) = false) ↔ co ≠ some true := by
    intro co
    rcases co with _ | b
    · simp
    · cases b <;> simp
  have hco2 : ∀ co : Option Bool,
      ((match co with | some b => b | none => false) = true) ↔ co = some true := by
    intro co
    rcases co with _ | b
    · simp
    · cases b <;> simp
  simp only [verifyWebAuthn]
  split_ifs with h1 h2 h3 h4 h5 h6 <;>
    simp_all [hco, hco2, Bool.and_eq_true, Bool.not_eq_true]

/-- C8: a WebAuthn POST terminates via `ctx.success` only when the state is
a stored `start` state, the client-data challenge equals the stored
challenge, a credential is found, the rpIdHash matches, user-present and
user-verified are set, the client data type is `Get`, the origin matches,
`crossOrigin` is not true, and the signature verifies; any failure renders
a fresh start state carrying the newly generated challenge, and
`generateUnbiasedDigits` challenges of length 32 are 32 decimal digits. -/
theorem webauthn_success_requires_all_checks (env : WebAuthnEnv)
    (state : Option WState) (fd : WForm) :
    (∀ cred, webauthnPost env state fd = .success cred →
      ∃ st, state = some st ∧
        strTruthy fd.credentialId = true ∧ strTruthy fd.signature = true ∧
        strTruthy fd.authData = true ∧ strTruthy fd.clientDataJSON = true ∧
        st.challenge = (env.parseCD (fd.clientDataJSON.getD "")).challenge ∧
        env.getCredential (fd.credentialId.getD "") = some cred ∧
        (env.parseAD (fd.authData.getD "")).rpIdHashValid env.rpId = true ∧
        (env.parseAD (fd.authData.getD "")).userPresent = true ∧
        (env.parseAD (fd.authData.getD "")).userVerified = true ∧
        (env.parseCD (fd.clientDataJSON.getD "")).cdType = .get ∧
        (env.parseCD (fd.clientDataJSON.getD "")).origin = env.origin ∧
        (env.parseCD (fd.clientDataJSON.getD "")).crossOrigin ≠ some true ∧
        env.sigValid cred.publicKey (fd.signature.getD "") (fd.authData.getD "")
          (fd.clientDataJSON.getD "") = true) ∧
    ((¬ ∃ cred, webauthnPost env state fd = .success cred) →
      ∃ err, webauthnPost env state fd = .restart ⟨env.newChallenge⟩ err) ∧
    (∀ bytes s, generateUnbiasedDigits bytes 32 = some s →
      s.data.length = 32 ∧ ∀ ch ∈ s.data, ch ∈ "0123456789".data) := by
  refine ⟨?_, ?_, ?_⟩
  · intro cred hsucc
    cases state with
    | none => simp [webauthnPost] at hsucc
    | some st =>
      simp only [webauthnPost] at hsucc
      split at hsucc
      case isFalse => cases hsucc
      case isTrue htr =>
        split at hsucc
        case isFalse => cases hsucc
        case isTrue hch =>
          split at hsucc
          case h_1 hcred => cases hsucc
          case h_2 res hcred =>
            split at hsucc
            case h_1 err hv => cases hsucc
            case h_2 hv =>
              cases hsucc
              simp only [Bool.and_eq_true] at htr
              obtain ⟨⟨⟨h1, h2⟩, h3⟩, h4⟩ := htr
              obtain ⟨v1, v2, v3, v4, v5, v6, v7⟩ :=
                (verifyWebAuthn_none_iff env cred.publicKey (fd.signature.getD "")
                  (fd.authData.getD "") (fd.clientDataJSON.getD "")).mp hv
              exact ⟨st, rfl, h1, h2, h3, h4,
                (timingSafeCompare_true_iff _ _).mp hch, hcred,
                v1, v2, v3, v4, v5, v6, v7⟩
  · intro hnot
    cases state with
    | none => exact ⟨.unresolved, rfl⟩
    | some st =>
      simp only [webauthnPost]
      split
      case isFalse => exact ⟨.unresolved, rfl⟩
      case isTrue htr =>
        split
        case isFalse => exact ⟨.invalid_challenge, rfl⟩
        case isTrue hch =>
          split
          case h_1 hcred => exact ⟨.credential_not_found, rfl⟩
          case h_2 res hcred =>
            split
            case h_1 err hv => exact ⟨err, rfl⟩
            case h_2 hv =>
              exfalso
              apply hnot
              refine ⟨res, ?_⟩
              simp only [webauthnPost]
              rw [if_pos htr, if_pos hch, hcred]
              simp [hv]
  · intro bytes s hs
    simp only [generateUnbiasedDigits] at hs
    split at hs
    · cases hs
    · rename_i hlen
      cases hs
      constructor
      · simp only [string_mk_data, List.length_map, List.length_take] at hlen ⊢
        omega
      · intro ch hch
        simp only [List.mem_map] at hch
        obtain ⟨d, hd, rfl⟩ := hch
        have hd2 := List.mem_of_mem_take hd
        simp only [List.mem_map, List.mem_filter] at hd2
        obtain ⟨b, _, rfl⟩ := hd2
        have h10 : b % 10 < 10 := Nat.mod_lt _ (by norm_num)
        generalize b % 10 = d at h10 ⊢
        interval_cases d <;> decide

/-- A concrete WebAuthn environment in which every check passes. -/
def wEnv : WebAuthnEnv :=
  ⟨fun _ => ⟨.get, "c32", "https://x", none⟩,
    fun _ => ⟨fun _ => true, true, true⟩,
    fun _ => some ⟨"pk", "claims"⟩,
    fun _ _ _ _ => true,
    "rp", "https://x", "ch2"⟩

/-- A concrete WebAuthn POST form. -/
def wForm : WForm := ⟨some "id", some "sig", some "ad", some "cdj"⟩

/-- C8 witness: evaluation at a concrete passing assertion. -/
theorem webauthn_success_requires_all_checks_witness :
    webauthnPost wEnv (some ⟨"c32"⟩) wForm = .success ⟨"pk", "claims"⟩ ∧
    (wEnv.parseCD "cdj").crossOrigin ≠ some true ∧
    (∃ s, generateUnbiasedDigits (List.replicate 64 7) 32 = some s ∧
      s.data.length = 32) := by
  have h := webauthn_success_requires_all_checks wEnv (some ⟨"c32"⟩) wForm
  have hs := h.1 ⟨"pk", "claims"⟩ (by decide)
  obtain ⟨st, hst, h1, h2, h3, h4, h5, h6, h7, h8, h9, h10, h11, h12, h13⟩ := hs
  refine ⟨by decide, h12, ?_⟩
  refine ⟨(String.mk (List.replicate 32 '7')), ?_, ?_⟩
  · exact (by decide)
  · exact ((h.2.2 (List.replicate 64 7) (String.mk (List.replicate 32 '7'))
      (by decide))).1

/-! ### Refresh-token rotation and reuse detection

The issuer's token service is not among the provided sources (only its
tests in `packages/openauth/test/client.test.ts` are), so this subsystem is
modelled from spec §3.4/§4.3. -/

/-- Modelled from the spec: a stored refresh record
`oauth:refresh/<subjectID>/<refreshID> ->
{type, properties, clientID, nextToken?, timeUsed?}` plus the random
`secret` the presented token is compared against (§3.3, §4.3); the issuer
source holding this type is absent from src/. -/
structure RefreshRecord where
  subjectType : String
  properties : String
  clientID : String
  secret : String
  nextToken : Option String
  timeUsed : Option Nat
deriving DecidableEq

/-- Modelled from the spec: the refresh-token key family as an association
of `(subjectID, refreshID)` pairs to records. -/
abbrev RefreshState : Type := List ((String × String) × RefreshRecord)

/-- Record lookup by key. -/
def lookupR (st : RefreshState) (k : String × String) : Option RefreshRecord :=
  (st.find? (fun p => p.1 == k)).map (fun p => p.2)

/-- Record removal by key. -/
def removeR (st : RefreshState) (k : String × String) : RefreshState :=
  st.filter (fun p => p.1 ≠ k)

/-- Record upsert by key. -/
def insertR (st : RefreshState) (k : String × String) (r : RefreshRecord) :
    RefreshState :=
  removeR st k ++ [(k, r)]

/-- Modelled from the spec: parsing the opaque refresh token of shape
`<subjectID>:<refreshID>:<secret>` (§3.3); malformed tokens are rejected. -/
def parseToken (s : String) : Option (String × String × String) :=
  match (splitOnCharL ':' s.data).map String.mk with
  | [a, b, c] => some (a, b, c)
  | _ => none

/-- Modelled from the spec: the identity-bearing part of an access-token
payload (§3.3) — `mode`, `sub`, `aud`, subject `type` and `properties`.
The time fields `iat`/`exp` are omitted: the spec's reuse-interval scenario
(§8, scenario 2) requires the replayed access token's payload to equal the
first one's, so the replay payload is determined by the stored record. -/
structure AccessPayload where
  mode : String
  sub : String
  aud : String
  subjectType : String
  properties : String
deriving DecidableEq

/-- Modelled from the spec: mint the access payload for a subject from its
stored refresh record (§4.3 "Mint access token"). -/
def mintAccess (subjectID : String) (r : RefreshRecord) : AccessPayload :=
  ⟨"access", subjectID, r.clientID, r.subjectType, r.properties⟩

/-- Outcome of consuming a refresh token: a new access payload and refresh
token, or an OAuth error code. -/
inductive ConsumeResult where
  | ok (access : AccessPayload) (refresh : String)
  | err (code : String)
deriving DecidableEq

/-- Modelled from the spec: reuse detection "deletes the entire chain by
walking `nextToken` forward from the reused node" (§3.4); fuel bounds the
walk by the number of stored records. -/
def chainDelete : Nat → RefreshState → (String × String) → RefreshState
  | 0, st, _ => st
  | fuel + 1, st, k =>
    match lookupR st k with
    | none => st
    | some r =>
      let st2 := removeR st k
      match r.nextToken.bind parseToken with
      | some (a, b, _) => chainDelete fuel st2 (a, b)
      | none => st2

/-- The keys visited by the same walk that `chainDelete` performs. -/
def chainIds : Nat → RefreshState → (String × String) → List (String × String)
  | 0, _, _ => []
  | fuel + 1, st, k =>
    match lookupR st k with
    | none => []
    | some r =>
      let st2 := removeR st k
      match r.nextToken.bind parseToken with
      | some (a, b, _) => k :: chainIds fuel st2 (a, b)
      | none => [k]

/-- Modelled from the spec: `consume refresh token` (§4.3), absent from
src/. Parse, look up, constant-time-compare the secret; a record carrying
`nextToken` and `timeUsed` replays the cached pair within the reuse
interval and triggers chain-deleting reuse detection after it; otherwise
rotate: write `nextToken`/`timeUsed` onto the record and persist a fresh
record under the supplied fresh id and secret. -/
def consumeRefreshToken (reuse : Nat) (now : Nat) (freshId freshSecret : String)
    (st : RefreshState) (token : String) : ConsumeResult × RefreshState :=
  match parseToken token with
  | none => (.err "invalid_grant", st)
  | some (sub, rid, secret) =>
    match lookupR st (sub, rid) with
    | none => (.err "invalid_grant", st)
    | some r =>
      if timingSafeCompare secret r.secret then
        match r.nextToken, r.timeUsed with
        | some nt, some tu =>
          if now - tu ≤ reuse then (.ok (mintAccess sub r) nt, st)
          else (.err "invalid_grant", chainDelete st.length st (sub, rid))
        | _, _ =>
          let newToken := sub ++ ":" ++ freshId ++ ":" ++ freshSecret
          let updated : RefreshRecord :=
            { r with nextToken := some newToken, timeUsed := some now }
          let st2 := insertR (insertR st (sub, rid) updated) (sub, freshId)
            ⟨r.subjectType, r.properties, r.clientID, freshSecret, none, none⟩
          (.ok (mintAccess sub r) newToken, st2)
      else (.err "invalid_grant", st)

/-- Modelled from the spec: `/token` returns OAuth errors as HTTP 400 JSON
`{error}` (§4.4, §7). -/
def tokenRefreshHttp (res : ConsumeResult) : Nat × String :=
  match res with
  | .ok _ _ => (200, "")
  | .err c => (400, c)

theorem find?_filter_of_imp {α : Type} (p q : α → Bool) (l : List α)
    (h : ∀ x, p x = true → q x = true) :
    List.find? p (l.filter q) = List.find? p l := by
  induction l with
  | nil => rfl
  | cons x xs ih =>
    by_cases hq : q x = true
    · cases hp : p x <;> simp [List.filter_cons, hq, List.find?_cons, hp, ih]
    · have hp : p x = false := by
        cases hpx : p x
        · rfl
        · exact absurd (h x hpx) hq
      have hq2 : q x = false := by
        cases hqx : q x
        · rfl
        · exact absurd hqx hq
      simp [List.filter_cons, hq2, List.find?_cons, hp, ih]

theorem lookupR_insert (st : RefreshState) (k : String × String)
    (v : RefreshRecord) (k' : String × String) :
    lookupR (insertR st k v) k' = if k' = k then some v else lookupR st k' := by
  simp only [lookupR, insertR, removeR]
  rw [List.find?_append]
  by_cases hk : k' = k
  · subst hk
    have h1 : List.find? (fun p : (String × String) × RefreshRecord => p.1 == k')
        (st.filter (fun p => p.1 ≠ k')) = none := by
      rw [List.find?_eq_none]
      intro x hx
      have hmem := List.of_mem_filter hx
      simp only [decide_eq_true_eq] at hmem
      simp [hmem]
    rw [h1]
    simp
  · rw [if_neg hk]
    have hk2 : ¬ (k = k') := fun hkk => hk hkk.symm
    have h2 : List.find? (fun p : (String × String) × RefreshRecord => p.1 == k')
        (st.filter (fun p => p.1 ≠ k))
        = List.find? (fun p => p.1 == k') st := by
      apply find?_filter_of_imp
      intro x hx
      simp only [beq_iff_eq] at hx
      simp [hx, hk]
    rw [h2]
    cases hfind : List.find? (fun p : (String × String) × RefreshRecord => p.1 == k') st with
    | none => simp [hk2]
    | some w => simp

theorem lookupR_remove_self (st : RefreshState) (k : String × String) :
    lookupR (removeR st k) k = none := by
  simp only [lookupR, removeR]
  have h1 : List.find? (fun p : (String × String) × RefreshRecord => p.1 == k)
      (st.filter (fun p => p.1 ≠ k)) = none := by
    rw [List.find?_eq_none]
    intro x hx
    have hmem := List.of_mem_filter hx
    simp only [decide_eq_true_eq] at hmem
    simp [hmem]
  rw [h1]
  rfl

theorem lookupR_remove_absent (st : RefreshState) (k k' : String × String)
    (h : lookupR st k' = none) : lookupR (removeR st k) k' = none := by
  simp only [lookupR, removeR] at h ⊢
  have h0 : List.find? (fun p : (String × String) × RefreshRecord => p.1 == k') st
      = none := by
    cases hf : List.find? (fun p : (String × String) × RefreshRecord => p.1 == k') st with
    | none => rfl
    | some w =>
      rw [hf] at h
      cases h
  have h1 : List.find? (fun p : (String × String) × RefreshRecord => p.1 == k')
      (st.filter (fun p => p.1 ≠ k)) = none := by
    rw [List.find?_eq_none]
    intro x hx
    exact List.find?_eq_none.mp h0 x (List.mem_of_mem_filter hx)
  rw [h1]
  rfl

theorem chainDelete_absent (fuel : Nat) :
    ∀ (st : RefreshState) (k0 k' : String × String), lookupR st k' = none →
      lookupR (chainDelete fuel st k0) k' = none := by
  induction fuel with
  | zero => intro st k0 k' h; exact h
  | succ fuel ih =>
    intro st k0 k' h
    rcases hl : lookupR st k0 with _ | r
    · simp only [chainDelete, hl]
      exact h
    · rcases hn : r.nextToken.bind parseToken with _ | ⟨a, b, c⟩
      · simp only [chainDelete, hl, hn]
        exact lookupR_remove_absent st k0 k' h
      · simp only [chainDelete, hl, hn]
        exact ih (removeR st k0) (a, b) k' (lookupR_remove_absent st k0 k' h)

theorem chainDelete_deletes (fuel : Nat) :
    ∀ (st : RefreshState) (k : String × String),
      ∀ k' ∈ chainIds fuel st k, lookupR (chainDelete fuel st k) k' = none := by
  induction fuel with
  | zero => intro st k k' h; cases h
  | succ fuel ih =>
    intro st k k' h
    rcases hl : lookupR st k with _ | r
    · simp only [chainIds, hl] at h
      cases h
    · rcases hn : r.nextToken.bind parseToken with _ | ⟨a, b, c⟩
      · simp only [chainIds, hl, hn] at h
        simp only [chainDelete, hl, hn]
        simp only [List.mem_singleton] at h
        subst h
        exact lookupR_remove_self st k'
      · simp only [chainIds, hl, hn] at h
        simp only [chainDelete, hl, hn]
        rcases List.mem_cons.mp h with hk | hk
        · subst hk
          exact chainDelete_absent fuel (removeR st k') (a, b) k'
            (lookupR_remove_self st k')
        · exact ih (removeR st k) (a, b) k' hk

/-- C1: consuming a fresh refresh token rotates it; a second consumption of
the same token within the reuse interval returns exactly the first
consumption's pair (same cached next refresh token, identical access
payload) without touching the state; a second consumption after the reuse
interval returns HTTP 400 `invalid_grant` and deletes every record reached
by walking `nextToken` forward from the reused node. -/
theorem refresh_reuse_interval_spec
    (reuse now1 now2 : Nat) (fid fsec fid2 fsec2 : String)
    (st : RefreshState) (tok sub rid sec : String) (r : RefreshRecord)
    (hparse : parseToken tok = some (sub, rid, sec))
    (hlook : lookupR st (sub, rid) = some r)
    (hsec : timingSafeCompare sec r.secret = true)
    (hnext : r.nextToken = none) (htime : r.timeUsed = none)
    (hfid : fid ≠ rid) :
    (consumeRefreshToken reuse now1 fid fsec st tok).1
        = .ok (mintAccess sub r) (sub ++ ":" ++ fid ++ ":" ++ fsec) ∧
    (now2 - now1 ≤ reuse →
      consumeRefreshToken reuse now2 fid2 fsec2
          (consumeRefreshToken reuse now1 fid fsec st tok).2 tok
        = ((consumeRefreshToken reuse now1 fid fsec st tok).1,
            (consumeRefreshToken reuse now1 fid fsec st tok).2)) ∧
    (reuse < now2 - now1 →
      (consumeRefreshToken reuse now2 fid2 fsec2
          (consumeRefreshToken reuse now1 fid fsec st tok).2 tok).1
        = .err "invalid_grant" ∧
      tokenRefreshHttp (consumeRefreshToken reuse now2 fid2 fsec2
          (consumeRefreshToken reuse now1 fid fsec st tok).2 tok).1
        = (400, "invalid_grant") ∧
      ∀ k ∈ chainIds (consumeRefreshToken reuse now1 fid fsec st tok).2.length
          (consumeRefreshToken reuse now1 fid fsec st tok).2 (sub, rid),
        lookupR (consumeRefreshToken reuse now2 fid2 fsec2
            (consumeRefreshToken reuse now1 fid fsec st tok).2 tok).2 k
          = none) := by
  have hkne : (sub, rid) ≠ (sub, fid) := by
    intro hh
    exact hfid ((congrArg Prod.snd hh).symm)
  have hrot : consumeRefreshToken reuse now1 fid fsec st tok
      = (.ok (mintAccess sub r) (sub ++ ":" ++ fid ++ ":" ++ fsec),
          insertR (insertR st (sub, rid)
              { r with nextToken := some (sub ++ ":" ++ fid ++ ":" ++ fsec),
                       timeUsed := some now1 })
            (sub, fid)
            ⟨r.subjectType, r.properties, r.clientID, fsec, none, none⟩) := by
    simp only [consumeRefreshToken, hparse, hlook]
    rw [if_pos hsec, hnext, htime]
  have hlook1 : lookupR
      (insertR (insertR st (sub, rid)
          { r with nextToken := some (sub ++ ":" ++ fid ++ ":" ++ fsec),
                   timeUsed := some now1 })
        (sub, fid)
        ⟨r.subjectType, r.properties, r.clientID, fsec, none, none⟩)
      (sub, rid)
      = some { r with nextToken := some (sub ++ ":" ++ fid ++ ":" ++ fsec),
                      timeUsed := some now1 } := by
    rw [lookupR_insert, if_neg hkne, lookupR_insert, if_pos rfl]
  refine ⟨by rw [hrot], ?_, ?_⟩
  · intro hle
    rw [hrot]
    simp only [consumeRefreshToken, hparse, hlook1]
    rw [if_pos hsec]
    simp only [if_pos hle]
    rfl
  · intro hgt
    have hdet : consumeRefreshToken reuse now2 fid2 fsec2
        (consumeRefreshToken reuse now1 fid fsec st tok).2 tok
        = (.err "invalid_grant",
            chainDelete (consumeRefreshToken reuse now1 fid fsec st tok).2.length
              (consumeRefreshToken reuse now1 fid fsec st tok).2 (sub, rid)) := by
      rw [hrot]
      simp only [consumeRefreshToken, hparse, hlook1]
      rw [if_pos hsec]
      rw [if_neg (by omega)]
    refine ⟨by rw [hdet], by rw [hdet]; rfl, ?_⟩
    intro k hk
    rw [hdet]
    exact chainDelete_deletes _ _ _ k hk

/-- A concrete fresh refresh record. -/
def rRec0 : RefreshRecord := ⟨"user", "props", "cli", "sec", none, none⟩

/-- A one-record refresh state holding `rRec0` under `("s", "r1")`. -/
def rSt0 : RefreshState := [(("s", "r1"), rRec0)]

/-- C1 witness: rotation at t=100, idempotent replay at t=130 (within
reuse=60), reuse detection with HTTP 400 at t=200. -/
theorem refresh_reuse_interval_spec_witness :
    (consumeRefreshToken 60 100 "r2" "sec2" rSt0 "s:r1:sec").1
      = .ok (mintAccess "s" rRec0) "s:r2:sec2" ∧
    consumeRefreshToken 60 130 "r3" "sec3"
        (consumeRefreshToken 60 100 "r2" "sec2" rSt0 "s:r1:sec").2 "s:r1:sec"
      = ((consumeRefreshToken 60 100 "r2" "sec2" rSt0 "s:r1:sec").1,
          (consumeRefreshToken 60 100 "r2" "sec2" rSt0 "s:r1:sec").2) ∧
    tokenRefreshHttp (consumeRefreshToken 60 200 "r3" "sec3"
        (consumeRefreshToken 60 100 "r2" "sec2" rSt0 "s:r1:sec").2 "s:r1:sec").1
      = (400, "invalid_grant") := by
  have h130 := refresh_reuse_interval_spec 60 100 130 "r2" "sec2" "r3" "sec3"
    rSt0 "s:r1:sec" "s" "r1" "sec" rRec0 (by decide) (by decide) (by decide)
    rfl rfl (by decide)
  have h200 := refresh_reuse_interval_spec 60 100 200 "r2" "sec2" "r3" "sec3"
    rSt0 "s:r1:sec" "s" "r1" "sec" rRec0 (by decide) (by decide) (by decide)
    rfl rfl (by decide)
  exact ⟨h130.1, h130.2.1 (by decide), (h200.2.2 (by decide)).2.1⟩

/-- C5 witness: the intersection membership characterisation evaluated at a
concrete request and authorized list. -/
theorem validateScopes_spec_witness :
    ("x" ∈ (validateScopes (.str "x y") (some ["x", "z"])).getD [] ↔
      "x" ∈ parseScopes "x y" ∧ "x" ∈ ["x", "z"]) := by
  exact validateScopes_spec.2.2.2.2.2.2.2.2.2.2 "x y" ["x", "z"] "x" (by decide)
